import Mathlib

/-!
Verification of the request-coordination core of the Async-TruckersMP client
(`truckersmp/cache.py`, `truckersmp/base.py`, `truckersmp/web.py`).

The Python code is shallowly embedded: the `Cache` class becomes a `CacheState`
structure over an insertion-ordered association list (mirroring Python dict
semantics: updating an existing key keeps its position, inserting a new key
appends), timestamps become integers (seconds), and the cooperative
single-flight protocol of `Cache.execute_async` becomes a small-step transition
system over the states of the participating asyncio tasks.
-/

/-! ## Cache embedding (`truckersmp/cache.py`, class `Cache`) -/

/-- `Cache.Object` (cache.py lines 25-33): a stored value together with the
`datetime.utcnow()` at which it was added, modelled in integer seconds. -/
structure CacheObject (V : Type) where
  value : V
  added : Int
deriving DecidableEq, Repr

/-- The mutable fields of `Cache` (cache.py `__init__`, lines 74-98) that the
claims depend on.  `base` is the backing `dict`, modelled as an
insertion-ordered association list; `maxSize = none` models
`max_size = float('inf')`; `ttl = none` models `time_to_live = None`
(an `int` configuration value `n` becomes `some n`, matching
`timedelta(seconds=n)`); `minimiseSize` mirrors the `minimise_size` flag. -/
structure CacheState (K V : Type) where
  base : List (K × CacheObject V)
  maxSize : Option Nat
  ttl : Option Int
  minimiseSize : Bool
deriving DecidableEq, Repr

/-- Python `key in d` on the backing dict. -/
def dictContains {K V : Type} [DecidableEq K] (l : List (K × CacheObject V)) (k : K) : Bool :=
  l.any (fun p => p.1 = k)

/-- Python `d[key] = obj`: replace in place when the key is present (dict
insertion order keeps the original position), append otherwise. -/
def dictSet {K V : Type} [DecidableEq K] (l : List (K × CacheObject V)) (k : K)
    (o : CacheObject V) : List (K × CacheObject V) :=
  if dictContains l k then
    l.map (fun p => if p.1 = k then (k, o) else p)
  else
    l ++ [(k, o)]

/-- Python `d[key]` lookup (used by `Cache._get`, lines 100-105). -/
def dictFind {K V : Type} [DecidableEq K] (l : List (K × CacheObject V)) (k : K) :
    Option (CacheObject V) :=
  (l.find? (fun p => p.1 = k)).map Prod.snd

/-- Python `del d[key]` (used by `Cache._del` / the expiry branch of `get`). -/
def dictErase {K V : Type} [DecidableEq K] (l : List (K × CacheObject V)) (k : K) :
    List (K × CacheObject V) :=
  l.filter (fun p => !(decide (p.1 = k)))

/-- `Cache._expired` (cache.py lines 111-113):
`if self.ttl: return (utcnow() - obj.added).total_seconds() >= self.ttl.total_seconds()`.
A `ttl` of `None` — and, because `timedelta(0)` is falsy in Python, a `ttl` of
zero — makes `_expired` return `None` (falsy), i.e. nothing ever expires. -/
def CacheState.expired {K V : Type} (c : CacheState K V) (obj : CacheObject V)
    (now : Int) : Bool :=
  match c.ttl with
  | none => false
  | some t => if t = 0 then false else decide (t ≤ now - obj.added)

/-- `Cache._del_old` (cache.py lines 119-121): delete the first (oldest by dict
position) entry when the dict is nonempty. `List.tail` is exactly that. -/
def CacheState.delOld {K V : Type} (c : CacheState K V) : CacheState K V :=
  { c with base := c.base.tail }

/-- The guard `len(self.base) >= self.max_size` of `Cache.add` (line 141);
always false when `max_size` is `float('inf')`. -/
def CacheState.atCapacity {K V : Type} (c : CacheState K V) : Bool :=
  match c.maxSize with
  | none => false
  | some m => decide (m ≤ c.base.length)

/-- `Cache.add` (cache.py lines 139-143): evict the oldest entry when at
capacity, then insert with `added = now`.  Note that the eviction consults only
dict position, never `_expired`: the `minimise_size` flag is read nowhere in
`add` (its declaration carries the comment "No effect right now"). -/
def CacheState.add {K V : Type} [DecidableEq K] (c : CacheState K V) (k : K) (v : V)
    (now : Int) : CacheState K V :=
  let c1 := if c.atCapacity then c.delOld else c
  { c1 with base := dictSet c1.base k ⟨v, now⟩ }

/-- `Cache.get` (cache.py lines 145-153): absent key is a miss; a present but
expired entry is deleted and reported as a miss; otherwise the stored value is
returned.  The first component is the returned value (`none` = Python `None`),
the second the cache state after the call. -/
def CacheState.get {K V : Type} [DecidableEq K] (c : CacheState K V) (k : K)
    (now : Int) : Option V × CacheState K V :=
  match dictFind c.base k with
  | none => (none, c)
  | some obj =>
    if c.expired obj now then (none, { c with base := dictErase c.base k })
    else (some obj.value, c)

/-- A sequence of `add` calls, each given as key, value and call time. -/
def CacheState.addAll {K V : Type} [DecidableEq K] (c : CacheState K V)
    (ops : List (K × V × Int)) : CacheState K V :=
  ops.foldl (fun s op => s.add op.1 op.2.1 op.2.2) c

/-! ### Basic cache lemmas -/

theorem dictErase_find_none {K V : Type} [DecidableEq K]
    (l : List (K × CacheObject V)) (k : K) : dictFind (dictErase l k) k = none := by
  simp [dictErase, dictFind]

theorem dictSet_length_le {K V : Type} [DecidableEq K]
    (l : List (K × CacheObject V)) (k : K) (o : CacheObject V) :
    (dictSet l k o).length ≤ l.length + 1 := by
  unfold dictSet
  by_cases h : dictContains l k
  · simp [h]
  · simp [h]

theorem add_maxSize_eq {K V : Type} [DecidableEq K] (c : CacheState K V) (k : K)
    (v : V) (now : Int) : (c.add k v now).maxSize = c.maxSize := by
  unfold CacheState.add
  cases h : c.atCapacity <;> simp [h, CacheState.delOld]

/-- One `add` preserves the bound `size ≤ maxSize` whenever `maxSize ≥ 1`. -/
theorem add_length_le {K V : Type} [DecidableEq K] (c : CacheState K V) (k : K)
    (v : V) (now : Int) (m : Nat) (hm : 1 ≤ m) (hmax : c.maxSize = some m)
    (hlen : c.base.length ≤ m) : ((c.add k v now).base).length ≤ m := by
  unfold CacheState.add
  cases hcap : c.atCapacity
  · have hlt : c.base.length < m := by
      unfold CacheState.atCapacity at hcap
      rw [hmax] at hcap
      have := of_decide_eq_false hcap
      omega
    simp only [hcap, Bool.false_eq_true, if_false]
    calc (dictSet c.base k ⟨v, now⟩).length
        ≤ c.base.length + 1 := dictSet_length_le _ _ _
      _ ≤ m := by omega
  · have hml : m ≤ c.base.length := by
      unfold CacheState.atCapacity at hcap
      rw [hmax] at hcap
      exact of_decide_eq_true hcap
    have hlen' : c.base.length = m := le_antisymm hlen hml
    have htail : c.base.tail.length = m - 1 := by
      rw [List.length_tail, hlen']
    simp only [hcap, if_true]
    calc (dictSet c.delOld.base k ⟨v, now⟩).length
        ≤ c.delOld.base.length + 1 := dictSet_length_le _ _ _
      _ = (m - 1) + 1 := by rw [show c.delOld.base = c.base.tail from rfl, htail]
      _ = m := by omega

/-! ### C3: cache expiry -/

/-- C3 (amended): for every configured positive `timeToLive`, once the elapsed
time since an entry was inserted is at least `timeToLive`, the next `get` for
that key returns a miss and removes the entry from the cache.  The state `c` is
arbitrary, so the conclusion holds regardless of how many earlier `get`s
returned hits (a hit leaves the cache state unchanged).  The positivity
hypothesis is forced by the counterexample `cache_ttl_zero_never_expires`:
`Cache.__init__` turns `time_to_live = 0` into the falsy `timedelta(0)`, which
`_expired` treats as "expiry disabled". -/
theorem cache_expiry_next_get_misses {K V : Type} [DecidableEq K]
    (c : CacheState K V) (k : K) (now t : Int) (obj : CacheObject V)
    (ht : c.ttl = some t) (htpos : 0 < t)
    (hfind : dictFind c.base k = some obj)
    (helapsed : t ≤ now - obj.added) :
    (c.get k now).1 = none ∧ dictFind (c.get k now).2.base k = none := by
  have hexp : c.expired obj now = true := by
    unfold CacheState.expired
    rw [ht]
    simp only [show ¬ t = 0 by omega, if_false]
    exact decide_eq_true helapsed
  unfold CacheState.get
  rw [hfind]
  simp only [hexp, if_true]
  exact ⟨by trivial, dictErase_find_none _ _⟩

theorem cache_expiry_next_get_misses_witness :
    let c : CacheState String Nat := ⟨[("x", ⟨7, 0⟩)], some 10, some 1, false⟩
    c.ttl = some 1 ∧ (0 : Int) < 1 ∧ dictFind c.base "x" = some ⟨7, 0⟩ ∧
      (1 : Int) ≤ 2 - 0 ∧
      ((c.get "x" 2).1 = none ∧ dictFind (c.get "x" 2).2.base "x" = none) :=
  ⟨by decide, by decide, by decide, by decide,
    cache_expiry_next_get_misses _ "x" 2 1 ⟨7, 0⟩ (by decide) (by decide)
      (by decide) (by decide)⟩

/-- The concrete cache used to refute C3 at `time_to_live = 0`: one entry
`"x"` inserted at time `0`, `max_size = 10`, configured `time_to_live = 0`. -/
def ttlZeroCache : CacheState String Nat := ⟨[("x", ⟨7, 0⟩)], some 10, some 0, false⟩

/-- C3 counterexample: with configured `time_to_live = 0`, an entry whose
elapsed time (100) is `≥ timeToLive` (0) is still returned as a hit by the next
`get`, and stays in the cache — because `timedelta(0)` is falsy, `_expired`
(cache.py line 113) never fires.  So the claim fails for the configured
`timeToLive = 0`. -/
theorem cache_ttl_zero_never_expires :
    ttlZeroCache.ttl = some 0 ∧ (0 : Int) ≤ 100 - 0 ∧
    (ttlZeroCache.get "x" 100).1 = some 7 ∧
    dictFind (ttlZeroCache.get "x" 100).2.base "x" = some ⟨7, 0⟩ := by decide

/-! ### C4: bounded size -/

/-- The empty cache configured with `max_size = 0`, used to refute C4. -/
def zeroCapCache : CacheState String Nat := ⟨[], some 0, none, false⟩

/-- C4 counterexample: with `maxSize = 0`, a single `add` to the empty cache
leaves one entry, so `size ≤ maxSize` fails after the call.  `Cache.add`
(cache.py lines 139-143) evicts at most one entry and then always inserts. -/
theorem cache_zero_max_size_exceeds_bound :
    ((zeroCapCache.add "a" 1 0).base).length = 1 ∧
    ¬ ((zeroCapCache.add "a" 1 0).base).length ≤ 0 := by decide

/-- C4 (amended): for every finite `maxSize ≥ 1` and every sequence of `add`
calls starting from a state within the bound, the number of entries stays
`≤ maxSize` after each call (any prefix of a sequence is itself a sequence, so
quantifying over all `ops` covers "after each call").  `maxSize = 0` is
excluded, as forced by the counterexample `cache_zero_max_size_exceeds_bound`. -/
theorem cache_add_bounded_size {K V : Type} [DecidableEq K] (m : Nat) (hm : 1 ≤ m)
    (c : CacheState K V) (hmax : c.maxSize = some m) (hlen : c.base.length ≤ m)
    (ops : List (K × V × Int)) : ((c.addAll ops).base).length ≤ m := by
  induction ops generalizing c with
  | nil => exact hlen
  | cons op ops ih =>
    have hstep := add_length_le c op.1 op.2.1 op.2.2 m hm hmax hlen
    have hmax' : (c.add op.1 op.2.1 op.2.2).maxSize = some m := by
      rw [add_maxSize_eq]; exact hmax
    simpa [CacheState.addAll, List.foldl_cons] using ih _ hmax' hstep

theorem cache_add_bounded_size_witness :
    let c : CacheState String Nat := ⟨[], some 2, none, false⟩
    1 ≤ 2 ∧ c.maxSize = some 2 ∧ c.base.length ≤ 2 ∧
      ((c.addAll [("a", 1, 0), ("b", 2, 1), ("c", 3, 2), ("a", 4, 3)]).base).length ≤ 2 :=
  ⟨by decide, by decide, by decide,
    cache_add_bounded_size 2 (by decide) _ (by decide) (by decide) _⟩

/-! ### C5: "smart" eviction -/

/-- A cache configured with the `minimise_size` ("smart") flag enabled,
`max_size = 3` and `time_to_live = 10`. -/
def smartCacheStart : CacheState String Nat := ⟨[], some 3, some 10, true⟩

/-- The state after `add a@0, add b@1, add a@8, add c@9`: the in-place dict
update of `a` at time 8 keeps `a` in front position while refreshing its
timestamp, so dict order no longer matches age order. -/
def smartCachePre : CacheState String Nat :=
  smartCacheStart.addAll [("a", 1, 0), ("b", 2, 1), ("a", 3, 8), ("c", 4, 9)]

/-- C5 counterexample: with smart mode enabled (`minimise_size = true`) and the
cache full, at time 12 entry `b` is expired while front entry `a` is fresh; yet
adding `d` evicts the fresh `a` and keeps the expired `b`.  `Cache.add` never
consults `_expired` and ignores `minimise_size` (declared "No effect right now",
cache.py line 78), so the claimed evict-expired-first policy does not hold. -/
theorem cache_smart_eviction_cex :
    smartCachePre.minimiseSize = true ∧
    smartCachePre.base.map Prod.fst = ["a", "b", "c"] ∧
    smartCachePre.expired ⟨2, 1⟩ 12 = true ∧
    smartCachePre.expired ⟨3, 8⟩ 12 = false ∧
    ((smartCachePre.add "d" 5 12).base).map Prod.fst = ["b", "c", "d"] ∧
    dictFind ((smartCachePre.add "d" 5 12).base) "b" = some ⟨2, 1⟩ ∧
    dictFind ((smartCachePre.add "d" 5 12).base) "a" = none := by decide

/-- C5 (amended): when the cache is full an `add` always evicts the entry at
the front of dict insertion order, regardless of expiry (smart eviction is not
implemented).  In the claim's scenario — `a` in front and expired, `b` fresh —
adding `c` therefore still evicts `a` and leaves exactly `{b, c}`, but only
because `a` is in front, not because it is expired (see
`cache_smart_eviction_cex`). -/
theorem cache_add_evicts_front_scenario {K V : Type} [DecidableEq K]
    (c : CacheState K V) (ka kb kc : K) (oa ob : CacheObject V) (v : V) (now : Int)
    (hbase : c.base = [(ka, oa), (kb, ob)]) (hmax : c.maxSize = some 2)
    (hexp : c.expired oa now = true) (hfresh : c.expired ob now = false)
    (hne : kb ≠ kc) :
    ((c.add kc v now).base).map Prod.fst = [kb, kc] := by
  have hcap : c.atCapacity = true := by
    unfold CacheState.atCapacity
    rw [hmax, hbase]
    simp
  unfold CacheState.add
  simp [hcap, CacheState.delOld, hbase, dictSet, dictContains, hne]

theorem cache_add_evicts_front_scenario_witness :
    let c : CacheState String Nat := ⟨[("a", ⟨1, 0⟩), ("b", ⟨2, 90⟩)], some 2, some 10, true⟩
    c.base = [("a", ⟨1, 0⟩), ("b", ⟨2, 90⟩)] ∧ c.maxSize = some 2 ∧
      c.expired ⟨1, 0⟩ 95 = true ∧ c.expired ⟨2, 90⟩ 95 = false ∧ "b" ≠ "c" ∧
      ((c.add "c" 3 95).base).map Prod.fst = ["b", "c"] :=
  ⟨by decide, by decide, by decide, by decide, by decide,
    cache_add_evicts_front_scenario _ "a" "b" "c" ⟨1, 0⟩ ⟨2, 90⟩ 3 95
      (by decide) (by decide) (by decide) (by decide) (by decide)⟩

/-! ## Transport embedding (`truckersmp/web.py`, `get_request`) and error types
(`truckersmp/exceptions.py`) -/

/-- The typed errors of `truckersmp/exceptions.py` that the transport and the
wrapper raise. -/
inductive ApiError where
  | connectError
  | rateLimitError
  | notFoundError
  | formatError
deriving DecidableEq, Repr

/-- The observable outcome of `get_request` (web.py lines 46-59): the function
returns the parsed JSON body, raises a typed error, or falls off the end of the
status dispatch and returns Python `None`. -/
inductive WebResult (V : Type) where
  | ok (v : V)
  | err (e : ApiError)
  | noneResult
deriving DecidableEq, Repr

/-- `str(resp.status)` as used by the status dispatch of `get_request`. -/
def statusText (status : Nat) : String := toString status

/-- Python `str.startswith`, expressed as a prefix test on the character
sequences of the two strings. -/
def textStartsWith (s p : String) : Bool := p.data.isPrefixOf s.data

/-- The status dispatch of `get_request` (web.py lines 50-57), given the HTTP
status and the JSON body a 2xx response would yield:
2xx returns the body, then 429, then 404, then any other 4xx/5xx raise, and
every remaining status falls through to an implicit `return None`. -/
def classifyStatus (V : Type) (status : Nat) (body : V) : WebResult V :=
  if textStartsWith (statusText status) "2" then .ok body
  else if status = 429 then .err .rateLimitError
  else if status = 404 then .err .notFoundError
  else if (textStartsWith (statusText status) "4" || textStartsWith (statusText status) "5") then
    .err .connectError
  else .noneResult

/-- C10: for every HTTP response status that is not 2xx, not 429, not 404 and
not any other 4xx or 5xx (for example a 3xx status), `get_request` raises no
error and returns no JSON value: it falls through to `return None`, an outcome
outside the success / not-found / rate-limited / connect-error classification. -/
theorem get_request_unhandled_status_returns_none (V : Type) (status : Nat) (body : V)
    (h2 : textStartsWith (statusText status) "2" = false)
    (h429 : status ≠ 429) (h404 : status ≠ 404)
    (h4 : textStartsWith (statusText status) "4" = false)
    (h5 : textStartsWith (statusText status) "5" = false) :
    classifyStatus V status body = .noneResult := by
  unfold classifyStatus
  rw [h2, h4, h5]
  simp [h429, h404]

theorem get_request_unhandled_status_returns_none_witness :
    textStartsWith (statusText 301) "2" = false ∧ (301 : Nat) ≠ 429 ∧ (301 : Nat) ≠ 404 ∧
      textStartsWith (statusText 301) "4" = false ∧ textStartsWith (statusText 301) "5" = false ∧
      classifyStatus Nat 301 0 = .noneResult :=
  ⟨by decide, by decide, by decide, by decide, by decide,
    get_request_unhandled_status_returns_none Nat 301 0 (by decide) (by decide)
      (by decide) (by decide) (by decide)⟩

/-! ## Coordinator wrapper embedding (`truckersmp/base.py`, `wrapper`) -/

/-- The string constants of the local `CacheExceptionValues` class in `wrapper`
(base.py lines 34-37). -/
def cacheInstructionConnectError : String := "cache-instruction: to raise - ConnectError"

def cacheInstructionFormatError : String := "cache-instruction: to raise - FormatError"

def cacheInstructionNotFoundError : String := "cache-instruction: to raise - NotFoundError"

/-- The universe of Python values `wrapper` can see come back from
`cache.execute_async`: `None`, a string, or a JSON payload of type `V`. -/
inductive PyValue (V : Type) where
  | nothing
  | str (s : String)
  | obj (v : V)
deriving DecidableEq, Repr

/-- `wrapper` (base.py lines 32-55) as a function of the outcome of
`cache.execute_async`.  The `try/except/else` structure is mirrored exactly:
each `except` arm assigns a sentinel string to the local `r` and then falls off
the end of the function (so the caller receives `None`); the `else` block —
which compares `r` to the sentinels and re-raises — runs only when no exception
was caught; `RateLimitError` has no `except` arm and propagates. -/
def wrapperResult (V : Type) [DecidableEq V] (res : Except ApiError (PyValue V)) :
    Except ApiError (PyValue V) :=
  match res with
  | .error .connectError => .ok .nothing
  | .error .formatError => .ok .nothing
  | .error .notFoundError => .ok .nothing
  | .error .rateLimitError => .error .rateLimitError
  | .ok r =>
    if r = .str cacheInstructionConnectError then .error .connectError
    else if r = .str cacheInstructionFormatError then .error .formatError
    else if r = .str cacheInstructionNotFoundError then .error .notFoundError
    else .ok r

/-- C1 (code bug): a `ConnectError` or `NotFoundError` raised by the transport
does NOT propagate out of `wrapper`: the `except` arms assign the
"cache-instruction: to raise - …" sentinel to the local `r` but never raise or
return it, so the function falls off the end and the caller receives a plain
`None` — contradicting the code's own intent (the sentinels are literally named
"to raise", and the dead `else`-block exists to re-raise them) and the
docstrings that advertise the typed errors.  Only `RateLimitError`, which has
no `except` arm, propagates as the claim states. -/
theorem wrapper_swallows_typed_errors :
    wrapperResult Nat (.error .connectError) = .ok .nothing ∧
    wrapperResult Nat (.error .notFoundError) = .ok .nothing ∧
    wrapperResult Nat (.error .formatError) = .ok .nothing ∧
    wrapperResult Nat (.error .rateLimitError) = .error .rateLimitError := by
  exact ⟨rfl, rfl, rfl, rfl⟩

/-! ## Cache-key derivation (`truckersmp/cache.py`, `make_hashable`) -/

/-- The list branch of `make_hashable` (cache.py lines 14-15):
`sha1(''.join(key).encode()).hexdigest()`.  The SHA-1 digest is an external
library call (`hashlib`), so it is abstracted as an arbitrary function of the
joined string — the collision below arises in `''.join`, before hashing. -/
def makeHashableList (digest : String → String) (key : List String) : String :=
  digest (String.join key)

/-- C9: `make_hashable` is not injective on list-valued keys: the distinct
lists `["ab"]` and `["a", "b"]` have the same `''.join` image, hence the same
cache key for every digest function, so their cached values share one entry. -/
theorem make_hashable_list_collision (digest : String → String) :
    makeHashableList digest ["ab"] = makeHashableList digest ["a", "b"] ∧
    (["ab"] : List String) ≠ ["a", "b"] := by
  constructor
  · have h : String.join ["ab"] = String.join ["a", "b"] := by decide
    unfold makeHashableList
    rw [h]
  · decide

/-! ## Single-flight protocol embedding (`truckersmp/cache.py`, `execute_async`)

`Cache.execute_async` (cache.py lines 173-189) runs many asyncio tasks for one
request identity.  In the repository `wrapper` always calls it with
`key = None`, so the cache key `make_hashable(None, *args, **kwargs)` and the
gate id `(func.__name__, args, kwargs)` are in bijection: one identity has one
`asyncio.Event` gate and one cache key.  The state below is the system state
restricted to that identity, at a fixed instant (no TTL expiry occurs during
one protocol round).  The atomic blocks are exactly the code segments between
suspension points of the coroutine:

* from entry through `await ...wait()` when the event is set, `self.get(key)`,
  and — on a miss — `clear()` up to the suspension at `await func(...)`
  (`Event.wait` does not yield when the event is already set);
* from entry to suspension inside `wait()` when the event is cleared;
* the same check/clear/invoke block when a released waiter is rescheduled
  (a waiter released by `set()` proceeds even if the event has been cleared
  again in the meantime — it does not re-check the flag);
* the completion block `set()` in the `finally`, then `self.add(key, r)` and
  `return r` (or exception propagation), which runs without yielding. -/

/-- The outcome of one call of the wrapped function `func`: a returned Python
value (possibly `None`) or a raised exception. -/
inductive ExecResult (V : Type) where
  | value (r : Option V)
  | raise
deriving DecidableEq, Repr

/-- The state of one asyncio task running `execute_async` for the identity. -/
inductive TaskState (V : Type) where
  | start
  | blocked
  | released
  | calling
  | done (r : Option V)
  | raised
deriving DecidableEq, Repr

/-- Whether a task's `execute_async` call has finished (returned or raised). -/
def TaskState.finished {V : Type} : TaskState V → Bool
  | .done _ => true
  | .raised => true
  | _ => false

/-- The system state for one request identity: the gate (`asyncio.Event`)
flag, the cache slot for the identity's key (`none` = key absent,
`some r` = a stored `Cache.Object` whose value is `r`, where `r = none` is a
stored Python `None`), the number of `func` invocations so far, and the
participating tasks. -/
structure ExecState (V : Type) where
  eventSet : Bool
  cacheVal : Option (Option V)
  invocations : Nat
  tasks : List (TaskState V)
deriving DecidableEq, Repr

/-- `self.get(key)` as seen by `execute_async` at the fixed instant: an absent
key yields `None`, a present entry yields its stored value — which is also
`None` when the stored value is Python `None`, the two cases being
indistinguishable to the `if c is not None` test on line 179. -/
def cacheGetNow {V : Type} (cv : Option (Option V)) : Option V :=
  match cv with
  | none => none
  | some r => r

/-- `Event.set()` releases every waiter currently blocked inside `wait()`;
each released task will proceed when scheduled, even if the event is cleared
again before that. -/
def releaseWaiters {V : Type} (ts : List (TaskState V)) : List (TaskState V) :=
  ts.map (fun t => match t with
    | .blocked => .released
    | t => t)

/-- One scheduler step of the cooperative single-flight protocol, for a fixed
deterministic outcome `ρ` of `func`. -/
inductive ExecStep {V : Type} (ρ : ExecResult V) : ExecState V → ExecState V → Prop where
  | hitAfterWait (s : ExecState V) (i : Nat) (v : V) :
      s.tasks[i]? = some .start → s.eventSet = true →
      cacheGetNow s.cacheVal = some v →
      ExecStep ρ s { s with tasks := s.tasks.set i (.done (some v)) }
  | missAfterWait (s : ExecState V) (i : Nat) :
      s.tasks[i]? = some .start → s.eventSet = true →
      cacheGetNow s.cacheVal = none →
      ExecStep ρ s { s with eventSet := false, invocations := s.invocations + 1,
                            tasks := s.tasks.set i .calling }
  | blockOnGate (s : ExecState V) (i : Nat) :
      s.tasks[i]? = some .start → s.eventSet = false →
      ExecStep ρ s { s with tasks := s.tasks.set i .blocked }
  | hitAfterWake (s : ExecState V) (i : Nat) (v : V) :
      s.tasks[i]? = some .released →
      cacheGetNow s.cacheVal = some v →
      ExecStep ρ s { s with tasks := s.tasks.set i (.done (some v)) }
  | missAfterWake (s : ExecState V) (i : Nat) :
      s.tasks[i]? = some .released →
      cacheGetNow s.cacheVal = none →
      ExecStep ρ s { s with eventSet := false, invocations := s.invocations + 1,
                            tasks := s.tasks.set i .calling }
  | callCompletes (s : ExecState V) (i : Nat) (r : Option V) :
      s.tasks[i]? = some .calling → ρ = .value r →
      ExecStep ρ s { s with eventSet := true, cacheVal := some r,
                            tasks := (releaseWaiters s.tasks).set i (.done r) }
  | callRaises (s : ExecState V) (i : Nat) :
      s.tasks[i]? = some .calling → ρ = .raise →
      ExecStep ρ s { s with eventSet := true,
                            tasks := (releaseWaiters s.tasks).set i .raised }

/-- The initial state: `n` tasks about to call `execute_async`, empty cache,
and the gate created in the set state by `_get_execute_process_id`
(cache.py lines 132-137). -/
def initExec (V : Type) (n : Nat) : ExecState V :=
  ⟨true, none, 0, List.replicate n .start⟩

/-- Multi-step reachability under an arbitrary cooperative schedule. -/
def ExecReachable {V : Type} (ρ : ExecResult V) : ExecState V → ExecState V → Prop :=
  Relation.ReflTransGen (ExecStep ρ)

theorem releaseWaiters_getElem? {V : Type} (ts : List (TaskState V)) (j : Nat) :
    (releaseWaiters ts)[j]? = ts[j]?.map (fun t => match t with
      | .blocked => .released
      | t => t) := by
  simp [releaseWaiters, List.getElem?_map]

theorem getElem?_lt_length {A : Type} {l : List A} {i : Nat} {a : A}
    (h : l[i]? = some a) : i < l.length :=
  (List.getElem?_eq_some.mp h).1

/-! ### C7: the gate is reopened on every exit path -/

/-- Single-step preservation of the gate invariant: the event flag is cleared
only while some task is suspended inside `await func(...)`. -/
theorem execStep_gate_inv {V : Type} (ρ : ExecResult V) (s s' : ExecState V)
    (h : ExecStep ρ s s')
    (ih : s.eventSet = false → ∃ i : Nat, s.tasks[i]? = some TaskState.calling) :
    s'.eventSet = false → ∃ i : Nat, s'.tasks[i]? = some TaskState.calling := by
  cases h with
  | hitAfterWait i v hi hev hc =>
    intro hf
    rw [show ({ s with tasks := s.tasks.set i (.done (some v)) } : ExecState V).eventSet
        = s.eventSet from rfl, hev] at hf
    cases hf
  | missAfterWait i hi hev hc =>
    intro _
    exact ⟨i, List.getElem?_set_eq_of_lt _ (getElem?_lt_length hi)⟩
  | blockOnGate i hi hev =>
    intro _
    obtain ⟨j, hj⟩ := ih hev
    have hne : i ≠ j := by
      intro hij
      rw [hij, hj] at hi
      cases hi
    exact ⟨j, by rw [List.getElem?_set_ne hne]; exact hj⟩
  | hitAfterWake i v hi hc =>
    intro hf
    obtain ⟨j, hj⟩ := ih hf
    have hne : i ≠ j := by
      intro hij
      rw [hij, hj] at hi
      cases hi
    exact ⟨j, by rw [List.getElem?_set_ne hne]; exact hj⟩
  | missAfterWake i hi hc =>
    intro _
    exact ⟨i, List.getElem?_set_eq_of_lt _ (getElem?_lt_length hi)⟩
  | callCompletes i r hi hρ =>
    intro hf
    cases hf
  | callRaises i hi hρ =>
    intro hf
    cases hf

/-- C7: for every outcome `ρ` of the underlying call and every reachable state
of the single-flight protocol, the gate (`Event`) for the key is cleared only
while some task's upstream call is actually in flight; consequently, once every
task's `execute_async` execution has finished — by returning a cached value,
returning a fresh result, or propagating an exception from `func` — the gate is
set.  No exit path leaves the gate Closed permanently: the `finally:` on
cache.py line 185 re-sets it even when `func` raises. -/
theorem gate_reopened_on_every_exit {V : Type} (ρ : ExecResult V) (n : Nat)
    (s : ExecState V) (hreach : ExecReachable ρ (initExec V n) s) :
    (s.eventSet = false → ∃ i : Nat, s.tasks[i]? = some TaskState.calling) ∧
    ((∀ t ∈ s.tasks, t.finished = true) → s.eventSet = true) := by
  have hinv : s.eventSet = false → ∃ i : Nat, s.tasks[i]? = some TaskState.calling := by
    induction hreach with
    | refl =>
      intro h
      simp [initExec] at h
    | tail hr step ih => exact execStep_gate_inv _ _ _ step ih
  refine ⟨hinv, ?_⟩
  intro hfin
  cases hev : s.eventSet
  · obtain ⟨i, hi⟩ := hinv hev
    have hmem : (TaskState.calling : TaskState V) ∈ s.tasks :=
      List.mem_iff_getElem?.mpr ⟨i, hi⟩
    have := hfin _ hmem
    simp [TaskState.finished] at this
  · rfl

theorem gate_reopened_on_every_exit_witness :
    let s1 : ExecState Nat := ⟨false, none, 1, [.calling]⟩
    (s1.eventSet = false → ∃ i : Nat, s1.tasks[i]? = some TaskState.calling) ∧
    ((∀ t ∈ s1.tasks, t.finished = true) → s1.eventSet = true) :=
  gate_reopened_on_every_exit (.value (some 7)) 1 _
    (Relation.ReflTransGen.head
      (ExecStep.missAfterWait (initExec Nat 1) 0 rfl rfl rfl)
      Relation.ReflTransGen.refl)

/-! ### C2: single-flight -/

theorem set_getElem?_eq_some {A : Type} {l : List A} {i j : Nat} {b c : A}
    (h : (l.set i b)[j]? = some c) : (i = j ∧ b = c) ∨ (i ≠ j ∧ l[j]? = some c) := by
  rw [List.getElem?_set] at h
  by_cases hij : i = j
  · left
    refine ⟨hij, ?_⟩
    rw [if_pos hij] at h
    by_cases hlt : i < l.length
    · rw [if_pos hlt] at h
      exact Option.some.inj h
    · rw [if_neg hlt] at h
      cases h
  · right
    rw [if_neg hij] at h
    exact ⟨hij, h⟩

theorem releaseWaiters_eq_some {V : Type} {ts : List (TaskState V)} {j : Nat}
    {c : TaskState V} (h : (releaseWaiters ts)[j]? = some c) :
    ∃ t, ts[j]? = some t ∧ (match t with
      | TaskState.blocked => TaskState.released
      | t => t) = c := by
  rw [releaseWaiters_getElem?] at h
  cases ht : ts[j]? with
  | none => rw [ht] at h; cases h
  | some t => rw [ht] at h; exact ⟨t, rfl, Option.some.inj h⟩

/-- Task `i` is the unique task whose upstream call is in flight. -/
def OnlyCallerAt {V : Type} (ts : List (TaskState V)) (i : Nat) : Prop :=
  ts[i]? = some TaskState.calling ∧
  ∀ j : Nat, ts[j]? = some TaskState.calling → j = i

/-- The inductive invariant of the single-flight protocol when `func`
deterministically returns the non-`None` value `v`.  Three phases: before the
first invocation, while the unique call is in flight, and after the result has
been cached. -/
def SingleFlightInv {V : Type} (v : V) (s : ExecState V) : Prop :=
  (∀ j : Nat, s.tasks[j]? ≠ some TaskState.raised) ∧
  (∀ (j : Nat) (r : Option V), s.tasks[j]? = some (TaskState.done r) → r = some v) ∧
  ((s.cacheVal = none ∧ s.eventSet = true ∧ s.invocations = 0 ∧
      (∀ j : Nat, s.tasks[j]? ≠ some TaskState.calling) ∧
      (∀ j : Nat, s.tasks[j]? ≠ some TaskState.released) ∧
      (∀ (j : Nat) (r : Option V), s.tasks[j]? ≠ some (TaskState.done r))) ∨
   (s.cacheVal = none ∧ s.eventSet = false ∧ s.invocations = 1 ∧
      (∃ i : Nat, OnlyCallerAt s.tasks i) ∧
      (∀ j : Nat, s.tasks[j]? ≠ some TaskState.released) ∧
      (∀ (j : Nat) (r : Option V), s.tasks[j]? ≠ some (TaskState.done r))) ∨
   (s.cacheVal = some (some v) ∧ s.eventSet = true ∧ s.invocations = 1 ∧
      (∀ j : Nat, s.tasks[j]? ≠ some TaskState.calling)))

theorem execStep_single_flight_inv {V : Type} (v : V) (s s' : ExecState V)
    (h : ExecStep (.value (some v)) s s') (inv : SingleFlightInv v s) :
    SingleFlightInv v s' := by
  obtain ⟨hnr, hdv, hph⟩ := inv
  cases h with
  | hitAfterWait i v0 hi hev hc =>
    rcases hph with hA | hB | hC
    · rw [hA.1] at hc
      cases hc
    · rw [hB.1] at hc
      cases hc
    · have hv0 : v0 = v := by
        rw [hC.1] at hc
        exact (Option.some.inj hc).symm
      subst hv0
      refine ⟨?_, ?_, Or.inr (Or.inr ⟨hC.1, hC.2.1, hC.2.2.1, ?_⟩)⟩
      · intro j hj
        rcases set_getElem?_eq_some hj with ⟨-, hb⟩ | ⟨-, hold⟩
        · cases hb
        · exact hnr j hold
      · intro j r hj
        rcases set_getElem?_eq_some hj with ⟨-, hb⟩ | ⟨-, hold⟩
        · cases hb
          rfl
        · exact hdv j r hold
      · intro j hj
        rcases set_getElem?_eq_some hj with ⟨-, hb⟩ | ⟨-, hold⟩
        · cases hb
        · exact hC.2.2.2 j hold
  | missAfterWait i hi hev hc =>
    rcases hph with hA | hB | hC
    · refine ⟨?_, ?_, Or.inr (Or.inl ⟨hA.1, rfl, ?_, ⟨i, ?_, ?_⟩, ?_, ?_⟩)⟩
      · intro j hj
        rcases set_getElem?_eq_some hj with ⟨-, hb⟩ | ⟨-, hold⟩
        · cases hb
        · exact hnr j hold
      · intro j r hj
        rcases set_getElem?_eq_some hj with ⟨-, hb⟩ | ⟨-, hold⟩
        · cases hb
        · exact hdv j r hold
      · show s.invocations + 1 = 1
        rw [hA.2.2.1]
      · exact List.getElem?_set_eq_of_lt _ (getElem?_lt_length hi)
      · intro j hj
        rcases set_getElem?_eq_some hj with ⟨hij, -⟩ | ⟨-, hold⟩
        · exact hij.symm
        · exact absurd hold (hA.2.2.2.1 j)
      · intro j hj
        rcases set_getElem?_eq_some hj with ⟨-, hb⟩ | ⟨-, hold⟩
        · cases hb
        · exact hA.2.2.2.2.1 j hold
      · intro j r hj
        rcases set_getElem?_eq_some hj with ⟨-, hb⟩ | ⟨-, hold⟩
        · cases hb
        · exact hA.2.2.2.2.2 j r hold
    · rw [hB.2.1] at hev
      cases hev
    · rw [hC.1] at hc
      cases hc
  | blockOnGate i hi hev =>
    rcases hph with hA | hB | hC
    · rw [hA.2.1] at hev
      cases hev
    · obtain ⟨i0, hi0, huniq⟩ := hB.2.2.2.1
      have hne : i ≠ i0 := by
        intro hii
        rw [hii, hi0] at hi
        cases hi
      refine ⟨?_, ?_, Or.inr (Or.inl ⟨hB.1, hB.2.1, hB.2.2.1, ⟨i0, ?_, ?_⟩, ?_, ?_⟩)⟩
      · intro j hj
        rcases set_getElem?_eq_some hj with ⟨-, hb⟩ | ⟨-, hold⟩
        · cases hb
        · exact hnr j hold
      · intro j r hj
        rcases set_getElem?_eq_some hj with ⟨-, hb⟩ | ⟨-, hold⟩
        · cases hb
        · exact hdv j r hold
      · rw [List.getElem?_set_ne hne]
        exact hi0
      · intro j hj
        rcases set_getElem?_eq_some hj with ⟨-, hb⟩ | ⟨-, hold⟩
        · cases hb
        · exact huniq j hold
      · intro j hj
        rcases set_getElem?_eq_some hj with ⟨-, hb⟩ | ⟨-, hold⟩
        · cases hb
        · exact hB.2.2.2.2.1 j hold
      · intro j r hj
        rcases set_getElem?_eq_some hj with ⟨-, hb⟩ | ⟨-, hold⟩
        · cases hb
        · exact hB.2.2.2.2.2 j r hold
    · rw [hC.2.1] at hev
      cases hev
  | hitAfterWake i v0 hi hc =>
    rcases hph with hA | hB | hC
    · exact absurd hi (hA.2.2.2.2.1 i)
    · exact absurd hi (hB.2.2.2.2.1 i)
    · have hv0 : v0 = v := by
        rw [hC.1] at hc
        exact (Option.some.inj hc).symm
      subst hv0
      refine ⟨?_, ?_, Or.inr (Or.inr ⟨hC.1, hC.2.1, hC.2.2.1, ?_⟩)⟩
      · intro j hj
        rcases set_getElem?_eq_some hj with ⟨-, hb⟩ | ⟨-, hold⟩
        · cases hb
        · exact hnr j hold
      · intro j r hj
        rcases set_getElem?_eq_some hj with ⟨-, hb⟩ | ⟨-, hold⟩
        · cases hb
          rfl
        · exact hdv j r hold
      · intro j hj
        rcases set_getElem?_eq_some hj with ⟨-, hb⟩ | ⟨-, hold⟩
        · cases hb
        · exact hC.2.2.2 j hold
  | missAfterWake i hi hc =>
    rcases hph with hA | hB | hC
    · exact absurd hi (hA.2.2.2.2.1 i)
    · exact absurd hi (hB.2.2.2.2.1 i)
    · rw [hC.1] at hc
      cases hc
  | callCompletes i r hi hρ =>
    have hr : r = some v := by
      injection hρ with h
      exact h.symm
    subst hr
    rcases hph with hA | hB | hC
    · exact absurd hi (hA.2.2.2.1 i)
    · obtain ⟨i0, hi0, huniq⟩ := hB.2.2.2.1
      have hii0 : i = i0 := huniq i hi
      refine ⟨?_, ?_, Or.inr (Or.inr ⟨rfl, rfl, hB.2.2.1, ?_⟩)⟩
      · intro j hj
        rcases set_getElem?_eq_some hj with ⟨-, hb⟩ | ⟨-, hold⟩
        · cases hb
        · obtain ⟨t, ht, hft⟩ := releaseWaiters_eq_some hold
          cases t with
          | raised => exact hnr j ht
          | blocked => cases hft
          | start => cases hft
          | released => cases hft
          | calling => cases hft
          | done r0 => cases hft
      · intro j r0 hj
        rcases set_getElem?_eq_some hj with ⟨-, hb⟩ | ⟨-, hold⟩
        · cases hb
          rfl
        · obtain ⟨t, ht, hft⟩ := releaseWaiters_eq_some hold
          cases t with
          | done r1 =>
            cases hft
            exact absurd ht (hB.2.2.2.2.2 j r0)
          | blocked => cases hft
          | start => cases hft
          | released => cases hft
          | calling => cases hft
          | raised => cases hft
      · intro j hj
        rcases set_getElem?_eq_some hj with ⟨-, hb⟩ | ⟨hij, hold⟩
        · cases hb
        · obtain ⟨t, ht, hft⟩ := releaseWaiters_eq_some hold
          cases t with
          | calling =>
            cases hft
            exact hij (hii0.trans (huniq j ht).symm)
          | blocked => cases hft
          | start => cases hft
          | released => cases hft
          | done r0 => cases hft
          | raised => cases hft
    · exact absurd hi (hC.2.2.2 i)
  | callRaises i hi hρ =>
    cases hρ

theorem exec_tasks_length {V : Type} (ρ : ExecResult V) (s0 s : ExecState V)
    (h : ExecReachable ρ s0 s) : s.tasks.length = s0.tasks.length := by
  induction h with
  | refl => rfl
  | tail hr step ih =>
    cases step with
    | hitAfterWait i v hi hev hc => simpa [List.length_set] using ih
    | missAfterWait i hi hev hc => simpa [List.length_set] using ih
    | blockOnGate i hi hev => simpa [List.length_set] using ih
    | hitAfterWake i v hi hc => simpa [List.length_set] using ih
    | missAfterWake i hi hc => simpa [List.length_set] using ih
    | callCompletes i r hi hρ =>
      simpa [List.length_set, releaseWaiters, List.length_map] using ih
    | callRaises i hi hρ =>
      simpa [List.length_set, releaseWaiters, List.length_map] using ih

theorem replicate_start_eq_some {V : Type} {n j : Nat} {t : TaskState V}
    (h : (List.replicate n (TaskState.start : TaskState V))[j]? = some t) :
    t = TaskState.start := by
  rw [List.getElem?_replicate] at h
  by_cases hj : j < n
  · rw [if_pos hj] at h
    exact (Option.some.inj h).symm
  · rw [if_neg hj] at h
    cases h

theorem initExec_single_flight_inv {V : Type} (v : V) (n : Nat) :
    SingleFlightInv v (initExec V n) := by
  refine ⟨?_, ?_, Or.inl ⟨rfl, rfl, rfl, ?_, ?_, ?_⟩⟩
  · intro j hj
    cases replicate_start_eq_some hj
  · intro j r hj
    cases replicate_start_eq_some hj
  · intro j hj
    cases replicate_start_eq_some hj
  · intro j hj
    cases replicate_start_eq_some hj
  · intro j r hj
    cases replicate_start_eq_some hj

/-- The invariant holds in every reachable state when `func` returns `some v`. -/
theorem execReachable_single_flight_inv {V : Type} (v : V) (n : Nat)
    (s : ExecState V) (hreach : ExecReachable (.value (some v)) (initExec V n) s) :
    SingleFlightInv v s := by
  induction hreach with
  | refl => exact initExec_single_flight_inv v n
  | tail hr step ih => exact execStep_single_flight_inv v _ _ step ih

/-- C2 (amended): for every `N ≥ 1`, `N` concurrent `execute_async` calls for
the same request identity issued while the cache holds no fresh entry cause
exactly one invocation of the underlying function, and all `N` callers receive
that same result — PROVIDED the function's result is not Python `None`.  The
proviso is forced by `execute_async_none_result_cex`: a `None` result (which
`get_request` produces, e.g. for a 3xx status) is cached but indistinguishable
from a miss, so each caller re-invokes the transport.  The theorem quantifies
over every cooperative schedule: any reachable state in which all `N` tasks
have finished has `invocations = 1` and every task done with `some v`. -/
theorem execute_async_single_flight {V : Type} (v : V) (n : Nat) (hn : 1 ≤ n)
    (s : ExecState V) (hreach : ExecReachable (.value (some v)) (initExec V n) s)
    (hfin : ∀ t ∈ s.tasks, t.finished = true) :
    s.invocations = 1 ∧ ∀ t ∈ s.tasks, t = TaskState.done (some v) := by
  have hinv : SingleFlightInv v s := execReachable_single_flight_inv v n s hreach
  have hlen : s.tasks.length = n := by
    have := exec_tasks_length _ _ _ hreach
    simpa [initExec] using this
  obtain ⟨hnr, hdv, hph⟩ := hinv
  have hnc : ∀ j : Nat, s.tasks[j]? ≠ some TaskState.calling := by
    intro j hj
    have := hfin _ (List.mem_iff_getElem?.mpr ⟨j, hj⟩)
    simp [TaskState.finished] at this
  have hall : ∀ t ∈ s.tasks, t = TaskState.done (some v) := by
    intro t htm
    obtain ⟨j, hj⟩ := List.getElem?_of_mem htm
    have hfint := hfin t htm
    cases t with
    | start => simp [TaskState.finished] at hfint
    | blocked => simp [TaskState.finished] at hfint
    | released => simp [TaskState.finished] at hfint
    | calling => simp [TaskState.finished] at hfint
    | raised => exact absurd hj (hnr j)
    | done r => rw [hdv j r hj]
  rcases hph with hA | hB | hC
  · have h0lt : 0 < s.tasks.length := by omega
    have h0 : s.tasks[0]? = some s.tasks[0] := List.getElem?_eq_getElem h0lt
    have hmem : s.tasks[0] ∈ s.tasks := List.mem_iff_getElem?.mpr ⟨0, h0⟩
    have := hall _ hmem
    rw [this] at h0
    exact absurd h0 (hA.2.2.2.2.2 0 (some v))
  · obtain ⟨i0, hi0, -⟩ := hB.2.2.2.1
    exact absurd hi0 (hnc i0)
  · exact ⟨hC.2.2.1, hall⟩

theorem execute_async_single_flight_witness :
    (1 ≤ 2) ∧
    ((⟨true, some (some 7), 1,
        [TaskState.done (some 7), TaskState.done (some 7)]⟩ : ExecState Nat).invocations = 1 ∧
      ∀ t ∈ (⟨true, some (some 7), 1,
        [TaskState.done (some 7), TaskState.done (some 7)]⟩ : ExecState Nat).tasks,
        t = TaskState.done (some 7)) :=
  ⟨by decide,
    execute_async_single_flight 7 2 (by decide) _
      (Relation.ReflTransGen.head (ExecStep.missAfterWait (initExec Nat 2) 0 rfl rfl rfl)
        (Relation.ReflTransGen.head (ExecStep.blockOnGate _ 1 rfl rfl)
          (Relation.ReflTransGen.head (ExecStep.callCompletes _ 0 (some 7) rfl rfl)
            (Relation.ReflTransGen.head (ExecStep.hitAfterWake _ 1 7 rfl rfl)
              Relation.ReflTransGen.refl))))
      (by decide)⟩

/-- C2 counterexample: two concurrent calls for one identity, empty cache, and
`func` deterministically returning Python `None` (as `get_request` does for a
3xx status).  Under the schedule below both tasks finish, yet the transport is
invoked twice, refuting "exactly one invocation" as stated: the completion of
task 0 stores `None`, task 1 — already released from `wait()` — re-checks the
cache, reads `None`, takes the miss branch and re-invokes `func`. -/
theorem execute_async_none_result_cex :
    ExecReachable (ExecResult.value (none : Option Nat)) (initExec Nat 2)
      ⟨true, some none, 2, [TaskState.done none, TaskState.done none]⟩ ∧
    (∀ t ∈ (⟨true, some none, 2,
        [TaskState.done none, TaskState.done none]⟩ : ExecState Nat).tasks,
      t.finished = true) ∧
    (⟨true, some none, 2,
        [TaskState.done none, TaskState.done none]⟩ : ExecState Nat).invocations = 2 ∧
    (⟨true, some none, 2,
        [TaskState.done none, TaskState.done none]⟩ : ExecState Nat).invocations ≠ 1 :=
  ⟨Relation.ReflTransGen.head (ExecStep.missAfterWait (initExec Nat 2) 0 rfl rfl rfl)
      (Relation.ReflTransGen.head (ExecStep.blockOnGate _ 1 rfl rfl)
        (Relation.ReflTransGen.head (ExecStep.callCompletes _ 0 none rfl rfl)
          (Relation.ReflTransGen.head (ExecStep.missAfterWake _ 1 rfl rfl)
            (Relation.ReflTransGen.head (ExecStep.callCompletes _ 1 none rfl rfl)
              Relation.ReflTransGen.refl)))),
    by decide, by decide, by decide⟩

/-! ### C8: "no content" results and the cache -/

/-- C8 (amended): after a successful upstream call whose result carries no
content (Python `None` — e.g. `get_request` falling through on a 3xx status),
`execute_async` stores the raw `None` in the cache (`self.add(key, r)`,
cache.py line 188, stores whatever came back); no distinguishable sentinel is
stored: through `Cache.get` the stored entry is indistinguishable from an
absent entry (both yield `None` to the `if c is not None` test), so a
subsequent request for the same key takes the miss branch and re-invokes the
upstream — incrementing `invocations` — instead of being served from cache. -/
theorem no_content_cached_indistinguishable {V : Type} (s : ExecState V) (i : Nat)
    (hcache : s.cacheVal = some none) (htask : s.tasks[i]? = some TaskState.start)
    (hevent : s.eventSet = true) :
    cacheGetNow s.cacheVal = cacheGetNow (none : Option (Option V)) ∧
    ExecStep (ExecResult.value (none : Option V)) s
      { s with eventSet := false, invocations := s.invocations + 1,
               tasks := s.tasks.set i TaskState.calling } := by
  constructor
  · rw [hcache]
    rfl
  · exact ExecStep.missAfterWait s i htask hevent (by rw [hcache]; rfl)

theorem no_content_cached_indistinguishable_witness :
    let s : ExecState Nat := ⟨true, some none, 1, [TaskState.done none, TaskState.start]⟩
    s.cacheVal = some none ∧ s.tasks[1]? = some TaskState.start ∧ s.eventSet = true ∧
      (cacheGetNow s.cacheVal = cacheGetNow (none : Option (Option Nat)) ∧
        ExecStep (ExecResult.value (none : Option Nat)) s
          { s with eventSet := false, invocations := s.invocations + 1,
                   tasks := s.tasks.set 1 TaskState.calling }) :=
  ⟨rfl, rfl, rfl,
    no_content_cached_indistinguishable _ 1 rfl rfl rfl⟩

/-- C8 counterexample: a concrete sequential run refuting the claim as stated.
Task 0 performs a successful upstream call whose result carries no content
(`None`), which is stored under the key (`cacheVal = some none`); afterwards
task 1 looks the key up, the lookup yields `None` — exactly what an absent
entry yields, so nothing distinguishes "cached empty" from "not yet cached" —
and task 1 re-invokes the upstream: `invocations` ends at 2, not 1, so the
subsequent lookup was NOT served from cache. -/
theorem no_content_not_served_from_cache_cex :
    ExecReachable (ExecResult.value (none : Option Nat)) (initExec Nat 2)
      ⟨false, some none, 2, [TaskState.done none, TaskState.calling]⟩ ∧
    (⟨false, some none, 2,
        [TaskState.done none, TaskState.calling]⟩ : ExecState Nat).cacheVal = some none ∧
    cacheGetNow ((⟨false, some none, 2,
        [TaskState.done none, TaskState.calling]⟩ : ExecState Nat).cacheVal) = none ∧
    (⟨false, some none, 2,
        [TaskState.done none, TaskState.calling]⟩ : ExecState Nat).invocations = 2 :=
  ⟨Relation.ReflTransGen.head (ExecStep.missAfterWait (initExec Nat 2) 0 rfl rfl rfl)
      (Relation.ReflTransGen.head (ExecStep.callCompletes _ 0 none rfl rfl)
        (Relation.ReflTransGen.head (ExecStep.missAfterWait _ 1 rfl rfl rfl)
          Relation.ReflTransGen.refl)),
    rfl, rfl, rfl⟩

/-! ## Auto-handling lockout (C6) -/

/-- Modelled from the spec: the auto-handling retry lockout is not present
under `src/` — the base.py docstrings refer to a
`TruckersMP._process_request` method (the variant with per-error-class
auto-handling and a `retry_time` cooldown) that is absent from the sources.
Following spec §4.2/P5: after a handled `ConnectError` (or `RateLimitError`)
for a key at time `lockedAt`, the gate is held Closed for the fixed cooldown
`retryTime`; a request arriving while the gate is Closed blocks until the
cooldown expires, and one arriving after it is not held. -/
structure Lockout where
  lockedAt : Int
  retryTime : Int
deriving DecidableEq, Repr

/-- The instant at which the cooldown expires and the gate reopens. -/
def Lockout.reopenTime (L : Lockout) : Int := L.lockedAt + L.retryTime

/-- Whether a request arriving at `arrival` is held by the lockout. -/
def Lockout.isHeld (L : Lockout) (arrival : Int) : Bool :=
  decide (arrival < L.reopenTime)

/-- The instant at which a request arriving at `arrival` proceeds upstream. -/
def Lockout.releaseTime (L : Lockout) (arrival : Int) : Int :=
  max arrival L.reopenTime

/-- C6: after a `ConnectError` (or `RateLimitError`) is auto-handled for key K
at time `lockedAt`, the gate for K is held Closed for the fixed `retry_time`
cooldown: every request arriving before `lockedAt + retryTime` is blocked
exactly until that instant, and a request arriving at or after it is not held.
(Settled against the spec-modelled `Lockout`, since the lockout code itself is
not under `src/`.) -/
theorem lockout_cooldown_blocks_until_expiry (L : Lockout) (arrival : Int) :
    (arrival < L.reopenTime →
      L.isHeld arrival = true ∧ L.releaseTime arrival = L.reopenTime) ∧
    (L.reopenTime ≤ arrival →
      L.isHeld arrival = false ∧ L.releaseTime arrival = arrival) := by
  constructor
  · intro h
    exact ⟨decide_eq_true h, max_eq_right (le_of_lt h)⟩
  · intro h
    exact ⟨decide_eq_false (not_lt.mpr h), max_eq_left h⟩

theorem lockout_cooldown_blocks_until_expiry_witness :
    ((3 : Int) < (Lockout.mk 0 5).reopenTime ∧
      ((Lockout.mk 0 5).isHeld 3 = true ∧
        (Lockout.mk 0 5).releaseTime 3 = (Lockout.mk 0 5).reopenTime)) ∧
    ((Lockout.mk 0 5).reopenTime ≤ (7 : Int) ∧
      ((Lockout.mk 0 5).isHeld 7 = false ∧ (Lockout.mk 0 5).releaseTime 7 = 7)) :=
  ⟨⟨by decide, (lockout_cooldown_blocks_until_expiry ⟨0, 5⟩ 3).1 (by decide)⟩,
    ⟨by decide, (lockout_cooldown_blocks_until_expiry ⟨0, 5⟩ 7).2 (by decide)⟩⟩
